import Mathlib

/-!
Verification of the playlist pull/push tool (`main.py`).

Strings are modelled as `List Char`.  Fallible code (Python `assert` /
exceptions) is modelled with `Option`.  The remote playlist API is modelled
explicitly: a playlist is a list, a page fetch returns a slice, and the two
write operations (`replace`, `append`) act on a playlist state.
-/

/-- `TITLE_WIDTH = 50` from the source. -/
def TITLE_WIDTH : Nat := 50

/-- `ARTIST_WIDTH = 40` from the source. -/
def ARTIST_WIDTH : Nat := 40

/-- `ID_WIDTH = 22` from the source. -/
def ID_WIDTH : Nat := 22

/-- A track record as consumed by `track_to_str`: its name, the names of its
artists, and its identifier. -/
structure Track where
  name : List Char
  artists : List (List Char)
  id : List Char

/-- The ASCII whitespace characters recognised by Python `str.strip()`
(space, tab, newline, carriage return, vertical tab, form feed). -/
def pyIsSpace (c : Char) : Bool :=
  c = ' ' || c = '\t' || c = '\n' || c = '\r' || c = Char.ofNat 11 || c = Char.ofNat 12

/-- Python `s.strip()`: drop leading and trailing whitespace. -/
def pyStrip (s : List Char) : List Char :=
  ((s.dropWhile pyIsSpace).reverse.dropWhile pyIsSpace).reverse

/-- Python `text[:k]` where `k` may be negative (counts from the end,
clamped at zero). -/
def pySliceTo (text : List Char) (k : Int) : List Char :=
  if k < 0 then text.take (text.length - (-k).toNat) else text.take k.toNat

/-- The helper `fit` nested inside `track_to_str`: truncate to `length - 3`
characters plus `"..."` when too long, else right-pad with spaces
(`str.ljust`) to exactly `length`. -/
def fit (text : List Char) (length : Nat) : List Char :=
  if text.length > length then pySliceTo text ((length : Int) - 3) ++ "...".data
  else text ++ List.replicate (length - text.length) ' '

/-- `", ".join(artists)`. -/
def joinArtists (artists : List (List Char)) : List Char :=
  List.intercalate ", ".data artists

/-- `track_to_str`: format one line
`f"{name_str} | {artists_str} | {id_str}"`.  Returns `none` exactly when the
`assert len(id_str) == ID_WIDTH` fails (an `AssertionError` escapes to the
caller). -/
def track_to_str (track : Track) : Option (List Char) :=
  let name_str := fit track.name TITLE_WIDTH
  let artists_str := fit (joinArtists track.artists) ARTIST_WIDTH
  let id_str := track.id
  if id_str.length = ID_WIDTH then
    some (name_str ++ " | ".data ++ artists_str ++ " | ".data ++ id_str)
  else none

/-- Python `s.split(c)` for a one-character separator: splits at every
occurrence, keeping empty fields. -/
def pySplit (c : Char) : List Char → List (List Char)
  | [] => [[]]
  | x :: xs =>
    if x = c then [] :: pySplit c xs
    else
      match pySplit c xs with
      | [] => [[x]]
      | h :: t => (x :: h) :: t

/-- `track_id_from_str`: `track_str.split('|')[-1].strip()`.  `split` always
returns a nonempty list, so `[-1]` is its last element. -/
def track_id_from_str (track_str : List Char) : List Char :=
  pyStrip ((pySplit '|' track_str).getLastD [])

/-- One item of a `playlist_tracks` response: the record whose `track` field
`pull_playlist_to_file` formats. -/
structure PlaylistItem where
  track : Track

/-- The paginated fetch loop of `get_playlist_tracks`.  The remote playlist
is modelled as the full list of its items; a page request at `offset` with
`limit=100` returns `(playlist.drop offset).take 100`.  Returns the
accumulated items together with the list of offsets requested, in order. -/
def fetchLoop (playlist : List PlaylistItem) (total offset : Nat) :
    List PlaylistItem × List Nat :=
  if offset < total then
    let response := (playlist.drop offset).take 100
    let r := fetchLoop playlist total (offset + 100)
    (response ++ r.1, offset :: r.2)
  else ([], [])
termination_by total - offset
decreasing_by omega

/-- `get_playlist_tracks`: probe the total (`= playlist.length` in the API
model), then run the fetch loop from offset 0. -/
def get_playlist_tracks (playlist : List PlaylistItem) : List PlaylistItem :=
  (fetchLoop playlist playlist.length 0).1

/-- The offsets of the page requests issued by `get_playlist_tracks`. -/
def requestOffsets (playlist : List PlaylistItem) : List Nat :=
  (fetchLoop playlist playlist.length 0).2

/-- The line `pull_playlist_to_file` writes for one item: the formatted
track, or the sentinel `INVALID TRACK` when `track_to_str` raises (the bare
`except` catches the failure for that item alone). -/
def lineOf (item : PlaylistItem) : List Char :=
  match track_to_str item.track with
  | some s => s
  | none => "INVALID TRACK".data

/-- `pull_playlist_to_file`: the lines written to the file, in order (each
line is terminated by a newline in the file; the list entry is the line
body). -/
def pull_playlist_to_file (playlist : List PlaylistItem) : List (List Char) :=
  (get_playlist_tracks playlist).map lineOf

/-- A remote write operation: `sp.playlist_replace_items` or
`sp.playlist_add_items`. -/
inductive WriteOp where
  | replace (chunk : List (List Char))
  | append (chunk : List (List Char))
deriving DecidableEq

/-- The `while len(track_ids) > 0` loop of `set_playlist_tracks`: each
iteration appends the next chunk of at most 100 ids. -/
def appendLoop (track_ids : List (List Char)) : List WriteOp :=
  if 0 < track_ids.length then
    WriteOp.append (track_ids.take 100) :: appendLoop (track_ids.drop 100)
  else []
termination_by track_ids.length
decreasing_by simp; omega

/-- `set_playlist_tracks`: the sequence of remote write operations issued —
a replace with the first chunk (`track_ids[:100]`, issued unconditionally),
then the append loop over the rest. -/
def set_playlist_tracks (track_ids : List (List Char)) : List WriteOp :=
  let chunk := track_ids.take 100
  let remaining := track_ids.drop 100
  WriteOp.replace chunk :: appendLoop remaining

/-- API model of one write operation acting on the remote playlist state:
replace discards the contents and installs its chunk, append adds its chunk
at the end. -/
def applyOp (state : List (List Char)) : WriteOp → List (List Char)
  | WriteOp.replace chunk => chunk
  | WriteOp.append chunk => state ++ chunk

/-- Apply a sequence of write operations to a remote playlist state. -/
def applyOps (state : List (List Char)) (ops : List WriteOp) : List (List Char) :=
  ops.foldl applyOp state

/-- `push_playlist_from_file`: the file is read in full first
(`f.readlines()`, each line keeping its trailing newline); `none` models a
failed open/read, whose exception propagates before any remote call, so no
write operation is issued. -/
def push_playlist_from_file (readResult : Option (List (List Char))) : List WriteOp :=
  match readResult with
  | none => []
  | some lines => set_playlist_tracks (lines.map track_id_from_str)

/-- The chunks `[l[:100], l[100:200], ...]` of a list, used to describe the
append loop. -/
def chunksOf (l : List (List Char)) : List (List (List Char)) :=
  if 0 < l.length then l.take 100 :: chunksOf (l.drop 100) else []
termination_by l.length
decreasing_by simp; omega

theorem chunksOf_flatten (l : List (List Char)) : (chunksOf l).flatten = l := by
  induction l using chunksOf.induct with
  | case1 l h ih => rw [chunksOf, if_pos h]; simp [ih]
  | case2 l h => rw [chunksOf, if_neg h]; simp at h; simp [h]

theorem chunksOf_length (l : List (List Char)) :
    (chunksOf l).length = (l.length + 99) / 100 := by
  induction l using chunksOf.induct with
  | case1 l h ih =>
    rw [chunksOf, if_pos h]
    simp only [List.length_cons, ih, List.length_drop]
    omega
  | case2 l h =>
    have h0 : l.length = 0 := by omega
    rw [chunksOf, if_neg h]
    simp only [List.length_nil, h0]

theorem chunksOf_sizes (l : List (List Char)) :
    ∀ c ∈ chunksOf l, 0 < c.length ∧ c.length ≤ 100 := by
  induction l using chunksOf.induct with
  | case1 l h ih =>
    rw [chunksOf, if_pos h]
    intro c hc
    rcases List.mem_cons.mp hc with h1 | h2
    · subst h1; simp; omega
    · exact ih c h2
  | case2 l h => rw [chunksOf, if_neg h]; intro c hc; simp at hc

theorem chunksOf_full (l : List (List Char)) :
    ∀ i, i + 1 < (chunksOf l).length → ((chunksOf l).getD i []).length = 100 := by
  induction l using chunksOf.induct with
  | case1 l h ih =>
    rw [chunksOf, if_pos h]
    intro i hi
    cases i with
    | zero =>
      simp only [List.length_cons, chunksOf_length] at hi
      simp only [List.getD_cons_zero, List.length_take, List.length_drop] at hi ⊢
      omega
    | succ j =>
      simp only [List.length_cons] at hi
      simp only [List.getD_cons_succ]
      exact ih j (by omega)
  | case2 l h => intro i hi; rw [chunksOf, if_neg h] at hi; simp at hi

theorem appendLoop_eq_chunksOf (l : List (List Char)) :
    appendLoop l = (chunksOf l).map WriteOp.append := by
  induction l using appendLoop.induct with
  | case1 l h ih => rw [appendLoop, if_pos h, chunksOf, if_pos h]; simp [ih]
  | case2 l h => rw [appendLoop, if_neg h, chunksOf, if_neg h]; simp

theorem applyOps_appendLoop (l : List (List Char)) :
    ∀ acc, applyOps acc (appendLoop l) = acc ++ l := by
  induction l using appendLoop.induct with
  | case1 l h ih =>
    intro acc
    rw [appendLoop, if_pos h]
    simp only [applyOps, List.foldl_cons] at ih ⊢
    rw [ih (applyOp acc (WriteOp.append (l.take 100)))]
    simp [applyOp]
  | case2 l h =>
    intro acc
    have h0 : l = [] := by simpa using h
    rw [appendLoop, if_neg h]
    simp [applyOps, h0]

theorem applyOps_set (init ids : List (List Char)) :
    applyOps init (set_playlist_tracks ids) = ids := by
  simp only [set_playlist_tracks, applyOps, List.foldl_cons]
  have h := applyOps_appendLoop (ids.drop 100) (applyOp init (WriteOp.replace (ids.take 100)))
  simp only [applyOps] at h
  rw [h]
  simp [applyOp]

theorem fetchLoop_fst (playlist : List PlaylistItem) (total offset : Nat)
    (h : playlist.length ≤ total) :
    (fetchLoop playlist total offset).1 = playlist.drop offset := by
  induction offset using fetchLoop.induct playlist total with
  | case1 offset hlt ih =>
    rw [fetchLoop, if_pos hlt]
    simp only [ih]
    rw [← List.drop_drop]
    exact List.take_append_drop 100 (playlist.drop offset)
  | case2 offset hlt =>
    rw [fetchLoop, if_neg hlt]
    have hlen : playlist.length ≤ offset := by omega
    simp [List.drop_eq_nil_of_le hlen]

theorem fetchLoop_snd (playlist : List PlaylistItem) (total offset : Nat) :
    (fetchLoop playlist total offset).2
      = (List.range ((total - offset + 99) / 100)).map (fun i => offset + 100 * i) := by
  induction offset using fetchLoop.induct playlist total with
  | case1 offset hlt ih =>
    rw [fetchLoop, if_pos hlt]
    have hn : (total - offset + 99) / 100 = (total - (offset + 100) + 99) / 100 + 1 := by
      omega
    rw [hn, List.range_succ_eq_map]
    simp only [ih, List.map_cons, List.map_map]
    have hf : ((fun i => offset + 100 * i) ∘ Nat.succ) = (fun i => offset + 100 + 100 * i) := by
      funext i
      simp only [Function.comp_apply, Nat.succ_eq_add_one]
      omega
    rw [hf]
    simp
  | case2 offset hlt =>
    rw [fetchLoop, if_neg hlt]
    have h0 : (total - offset + 99) / 100 = 0 := by omega
    simp [h0]

theorem get_playlist_tracks_eq (playlist : List PlaylistItem) :
    get_playlist_tracks playlist = playlist := by
  rw [get_playlist_tracks, fetchLoop_fst playlist playlist.length 0 (le_refl _)]
  simp

/-- **C1.** After `set_playlist_tracks` completes, the remote playlist —
whatever its previous contents — equals exactly the given id sequence, in
order, under the stated API model (replace installs its chunk discarding
the old contents, append adds its chunk at the end). -/
theorem set_playlist_tracks_exact (init ids : List (List Char)) :
    applyOps init (set_playlist_tracks ids) = ids :=
  applyOps_set init ids

/-- **C8.** Pushing an empty id list issues exactly one write operation —
a replace with an empty chunk, no appends — and leaves the remote playlist
cleared. -/
theorem push_empty_clears :
    set_playlist_tracks ([] : List (List Char)) = [WriteOp.replace []]
    ∧ ∀ init : List (List Char), applyOps init (set_playlist_tracks []) = [] := by
  constructor
  · rw [set_playlist_tracks, appendLoop]
    simp
  · intro init
    exact applyOps_set init []

/-- **C10.** `push_playlist_from_file` reads the whole file before any
remote call: when the open/read fails, no replace or append operation is
issued and the remote playlist is unchanged. -/
theorem push_read_failure :
    push_playlist_from_file none = []
    ∧ ∀ init : List (List Char), applyOps init (push_playlist_from_file none) = init :=
  ⟨rfl, fun _ => rfl⟩

/-- **C3.** Pulling a playlist with `total` tracks fetches every item once
(cumulative fetched = `total`), issues its page requests at offsets
`0, 100, 200, …` (one per page of 100 until the offset reaches the total),
and writes a file of exactly `total` lines, one line per track in playlist
order. -/
theorem pull_pagination (playlist : List PlaylistItem) :
    get_playlist_tracks playlist = playlist
    ∧ (get_playlist_tracks playlist).length = playlist.length
    ∧ requestOffsets playlist
        = (List.range ((playlist.length + 99) / 100)).map (fun i => 100 * i)
    ∧ pull_playlist_to_file playlist = playlist.map lineOf
    ∧ (pull_playlist_to_file playlist).length = playlist.length := by
  have hg : get_playlist_tracks playlist = playlist := get_playlist_tracks_eq playlist
  have hp : pull_playlist_to_file playlist = playlist.map lineOf := by
    rw [pull_playlist_to_file, hg]
  refine ⟨hg, by rw [hg], ?_, hp, by rw [hp]; simp⟩
  rw [requestOffsets, fetchLoop_snd]
  simp

/-- **C4.** `set_playlist_tracks` on a nonempty id list issues one replace
carrying the first (up to) 100 ids followed by the append chunks of the
rest: `ceil(N/100)` operations in total, `ceil((N-100)/100)` appends whose
chunks are nonempty, at most 100 long, all of exactly 100 except possibly
the last, and concatenate to the remaining ids; when `N ≤ 100` the whole
sequence is the single replace. -/
theorem set_playlist_tracks_chunking (ids : List (List Char)) (h : 0 < ids.length) :
    set_playlist_tracks ids
        = WriteOp.replace (ids.take 100) :: (chunksOf (ids.drop 100)).map WriteOp.append
    ∧ (set_playlist_tracks ids).length = (ids.length + 99) / 100
    ∧ (chunksOf (ids.drop 100)).length = (ids.length - 100 + 99) / 100
    ∧ (chunksOf (ids.drop 100)).flatten = ids.drop 100
    ∧ (∀ c ∈ chunksOf (ids.drop 100), 0 < c.length ∧ c.length ≤ 100)
    ∧ (∀ i, i + 1 < (chunksOf (ids.drop 100)).length →
        ((chunksOf (ids.drop 100)).getD i []).length = 100)
    ∧ (ids.length ≤ 100 → set_playlist_tracks ids = [WriteOp.replace ids]) := by
  have h1 : set_playlist_tracks ids
      = WriteOp.replace (ids.take 100) :: (chunksOf (ids.drop 100)).map WriteOp.append := by
    simp only [set_playlist_tracks]
    rw [appendLoop_eq_chunksOf]
  refine ⟨h1, ?_, ?_, chunksOf_flatten _, chunksOf_sizes _, chunksOf_full _, ?_⟩
  · rw [h1]
    simp only [List.length_cons, List.length_map, chunksOf_length, List.length_drop]
    omega
  · rw [chunksOf_length]
    simp
  · intro hle
    have hd : ids.drop 100 = [] := List.drop_eq_nil_of_le hle
    rw [h1, hd, chunksOf]
    simp [List.take_of_length_le hle]

/-- **C4, witness.** The chunking behaviour at a concrete list of 250
identifiers: one replace of the first 100 followed by the appends of the
remaining chunks, three operations in total. -/
theorem set_playlist_tracks_chunking_witness :
    0 < (List.replicate 250 ("x").data).length
    ∧ (set_playlist_tracks (List.replicate 250 ("x").data)
          = WriteOp.replace ((List.replicate 250 ("x").data).take 100)
            :: (chunksOf ((List.replicate 250 ("x").data).drop 100)).map WriteOp.append
      ∧ (set_playlist_tracks (List.replicate 250 ("x").data)).length
          = ((List.replicate 250 ("x").data).length + 99) / 100
      ∧ (chunksOf ((List.replicate 250 ("x").data).drop 100)).length
          = ((List.replicate 250 ("x").data).length - 100 + 99) / 100
      ∧ (chunksOf ((List.replicate 250 ("x").data).drop 100)).flatten
          = (List.replicate 250 ("x").data).drop 100
      ∧ (∀ c ∈ chunksOf ((List.replicate 250 ("x").data).drop 100),
          0 < c.length ∧ c.length ≤ 100)
      ∧ (∀ i, i + 1 < (chunksOf ((List.replicate 250 ("x").data).drop 100)).length →
          ((chunksOf ((List.replicate 250 ("x").data).drop 100)).getD i []).length = 100)
      ∧ ((List.replicate 250 ("x").data).length ≤ 100 →
          set_playlist_tracks (List.replicate 250 ("x").data)
            = [WriteOp.replace (List.replicate 250 ("x").data)])) :=
  ⟨by simp only [List.length_replicate]; omega,
    set_playlist_tracks_chunking (List.replicate 250 ("x").data)
      (by simp only [List.length_replicate]; omega)⟩

/-- **C7.** `pull_playlist_to_file` handles each encode failure per item:
the output has exactly one line per fetched item, the line at each position
comes from that item, and at every position where `track_to_str` fails the
line is the literal `INVALID TRACK`. -/
theorem pull_invalid_handling (playlist : List PlaylistItem) :
    (pull_playlist_to_file playlist).length = playlist.length
    ∧ (∀ i (h : i < playlist.length),
        (pull_playlist_to_file playlist).getD i [] = lineOf (playlist.get ⟨i, h⟩))
    ∧ (∀ i (h : i < playlist.length),
        track_to_str (playlist.get ⟨i, h⟩).track = none →
          (pull_playlist_to_file playlist).getD i [] = "INVALID TRACK".data) := by
  have hp : pull_playlist_to_file playlist = playlist.map lineOf := by
    rw [pull_playlist_to_file, get_playlist_tracks_eq]
  have hgetD : ∀ i (h : i < playlist.length),
      (pull_playlist_to_file playlist).getD i [] = lineOf (playlist.get ⟨i, h⟩) := by
    intro i h
    rw [hp, List.getD_eq_getElem _ _ (by simpa using h)]
    simp
  refine ⟨by rw [hp]; simp, hgetD, ?_⟩
  intro i h hn
  rw [hgetD i h]
  simp only [List.get_eq_getElem] at hn
  simp [lineOf, hn]

theorem pySplit_ne_nil (c : Char) (s : List Char) : pySplit c s ≠ [] := by
  induction s with
  | nil => simp [pySplit]
  | cons x xs ih =>
    rw [pySplit]
    split
    · simp
    · split
      · simp
      · simp

theorem pySplit_not_mem (c : Char) (s : List Char) (h : c ∉ s) : pySplit c s = [s] := by
  induction s with
  | nil => rfl
  | cons x xs ih =>
    have hx : ¬ x = c := by
      intro hq
      exact h (hq ▸ List.mem_cons_self x xs)
    have hxs : c ∉ xs := fun hm => h (List.mem_cons_of_mem _ hm)
    rw [pySplit, if_neg hx, ih hxs]

theorem pySplit_len2 (c : Char) (s : List Char) (h : c ∈ s) :
    2 ≤ (pySplit c s).length := by
  induction s with
  | nil => simp at h
  | cons x xs ih =>
    rw [pySplit]
    by_cases hx : x = c
    · rw [if_pos hx]
      have h1 := pySplit_ne_nil c xs
      have h2 : 0 < (pySplit c xs).length := List.length_pos.mpr h1
      simp only [List.length_cons]
      omega
    · rw [if_neg hx]
      have hxs : c ∈ xs := by
        rcases List.mem_cons.mp h with h1 | h2
        · exact absurd h1.symm hx
        · exact h2
      have h2 := ih hxs
      cases hps : pySplit c xs with
      | nil => exact absurd hps (pySplit_ne_nil c xs)
      | cons hh tt =>
        rw [hps] at h2
        simp only [List.length_cons] at h2 ⊢
        omega

theorem getLastD_cons_of_ne_nil {α : Type} (a : α) (l : List α) (d : α) (h : l ≠ []) :
    (a :: l).getLastD d = l.getLastD d := by
  cases l with
  | nil => exact absurd rfl h
  | cons b m =>
    rw [List.getLastD_eq_getLast?, List.getLastD_eq_getLast?, List.getLast?_cons_cons]

theorem pySplit_getLastD (c : Char) (xs ys : List Char) (h : c ∉ ys) :
    (pySplit c (xs ++ c :: ys)).getLastD [] = ys := by
  induction xs with
  | nil =>
    simp only [List.nil_append]
    rw [pySplit, if_pos rfl, pySplit_not_mem c ys h]
    rfl
  | cons x xs ih =>
    simp only [List.cons_append]
    by_cases hx : x = c
    · rw [pySplit, if_pos hx]
      rw [getLastD_cons_of_ne_nil _ _ _ (pySplit_ne_nil c _)]
      exact ih
    · have hmem : c ∈ xs ++ c :: ys := by simp
      rw [pySplit, if_neg hx]
      cases hps : pySplit c (xs ++ c :: ys) with
      | nil => exact absurd hps (pySplit_ne_nil c _)
      | cons hh tt =>
        have h2 := pySplit_len2 c _ hmem
        rw [hps] at h2
        have htt : tt ≠ [] := by
          intro hq
          rw [hq] at h2
          simp at h2
        rw [hps] at ih
        rw [getLastD_cons_of_ne_nil _ _ _ htt]
        rw [getLastD_cons_of_ne_nil _ _ _ htt] at ih
        exact ih

theorem pyStrip_cons_space (s : List Char) : pyStrip (' ' :: s) = pyStrip s := by
  simp only [pyStrip, List.dropWhile_cons]
  have hsp : pyIsSpace ' ' = true := rfl
  rw [hsp]
  simp

/-- A track whose 22-character identifier contains a `|`: the encoded line
then has its last pipe inside the identifier, so decoding returns only the
tail of the identifier. -/
def cexTrack : Track :=
  { name := "a".data, artists := ["b".data], id := "0123456789|0123456789a".data }

/-- A track with a well-formed 22-character identifier. -/
def goodTrack : Track :=
  { name := "Song".data, artists := ["Artist".data], id := "0123456789abcdefghijkl".data }

/-- A track whose identifier is not 22 characters long. -/
def badTrack : Track :=
  { name := "Bad".data, artists := ["A".data], id := "short".data }

/-- A two-item playlist whose second item fails to encode. -/
def demoPlaylist : List PlaylistItem := [⟨goodTrack⟩, ⟨badTrack⟩]

/-- **C2, counterexample.** The claim quantifies over every 22-character
identifier; for `cexTrack`, whose identifier contains a `|`, decoding the
encoded line does not return the identifier. -/
theorem roundtrip_pipe_cex :
    cexTrack.id.length = 22
    ∧ (track_to_str cexTrack).map track_id_from_str ≠ some cexTrack.id := by
  constructor
  · decide
  · decide

/-- **C2, amended.** For every track whose identifier is exactly 22
characters, contains no `|`, and carries no leading or trailing whitespace,
decoding the encoded line returns the original identifier. -/
theorem track_roundtrip_amended (t : Track) (h22 : t.id.length = ID_WIDTH)
    (hp : '|' ∉ t.id) (hs : pyStrip t.id = t.id) :
    (track_to_str t).map track_id_from_str = some t.id := by
  simp only [track_to_str]
  rw [if_pos h22]
  simp only [Option.map_some']
  congr 1
  rw [track_id_from_str]
  have hys : '|' ∉ ' ' :: t.id := by
    intro hmem
    rcases List.mem_cons.mp hmem with h1 | h2
    · exact absurd h1 (by decide)
    · exact hp h2
  have hline : fit t.name TITLE_WIDTH ++ [' ', '|', ' ']
        ++ fit (joinArtists t.artists) ARTIST_WIDTH ++ [' ', '|', ' '] ++ t.id
      = (fit t.name TITLE_WIDTH ++ [' ', '|', ' ']
          ++ fit (joinArtists t.artists) ARTIST_WIDTH ++ [' '])
        ++ '|' :: (' ' :: t.id) := by
    simp [List.append_assoc]
  rw [hline, pySplit_getLastD '|' _ _ hys, pyStrip_cons_space, hs]

/-- **C2, amended, witness.** The round trip at a concrete well-formed
track. -/
theorem track_roundtrip_amended_witness :
    goodTrack.id.length = ID_WIDTH
    ∧ '|' ∉ goodTrack.id
    ∧ pyStrip goodTrack.id = goodTrack.id
    ∧ (track_to_str goodTrack).map track_id_from_str = some goodTrack.id :=
  ⟨by decide, by decide, by decide,
    track_roundtrip_amended goodTrack (by decide) (by decide) (by decide)⟩

/-- **C5.** For the column widths used by the program, `fit` right-pads a
short-enough string with spaces to exactly the width, and truncates a
longer string to the first `width - 3` characters followed by `...`,
again of exactly the width. -/
theorem fit_spec (s : List Char) (w : Nat) (hw : w = 50 ∨ w = 40 ∨ w = 22) :
    (s.length ≤ w →
      fit s w = s ++ List.replicate (w - s.length) ' ' ∧ (fit s w).length = w)
    ∧ (w < s.length →
      fit s w = s.take (w - 3) ++ "...".data ∧ (fit s w).length = w) := by
  have hw3 : 3 ≤ w := by rcases hw with h | h | h <;> omega
  constructor
  · intro hle
    have hnot : ¬ s.length > w := by omega
    rw [fit, if_neg hnot]
    refine ⟨rfl, ?_⟩
    simp only [List.length_append, List.length_replicate]
    omega
  · intro hgt
    have hyes : s.length > w := hgt
    rw [fit, if_pos hyes]
    have hslice : pySliceTo s ((w : Int) - 3) = s.take (w - 3) := by
      rw [pySliceTo, if_neg (by omega)]
      congr 1
      omega
    rw [hslice]
    refine ⟨rfl, ?_⟩
    have hdots : ("...").data.length = 3 := rfl
    simp only [List.length_append, List.length_take, hdots]
    omega

/-- **C5, witness.** `fit` at width 22 on a short and on a long concrete
string. -/
theorem fit_spec_witness :
    (("hi").data.length ≤ 22
      ∧ fit ("hi").data 22
          = ("hi").data ++ List.replicate (22 - ("hi").data.length) ' '
      ∧ (fit ("hi").data 22).length = 22)
    ∧ (22 < ("abcdefghijklmnopqrstuvwxyz").data.length
      ∧ fit ("abcdefghijklmnopqrstuvwxyz").data 22
          = ("abcdefghijklmnopqrstuvwxyz").data.take (22 - 3) ++ "...".data
      ∧ (fit ("abcdefghijklmnopqrstuvwxyz").data 22).length = 22) := by
  constructor
  · exact ⟨by decide,
      (fit_spec ("hi").data 22 (by omega)).1 (by decide)⟩
  · exact ⟨by decide,
      (fit_spec ("abcdefghijklmnopqrstuvwxyz").data 22 (by omega)).2 (by decide)⟩

/-- **C6.** `track_to_str` fails exactly when the identifier is not 22
characters long; on a 22-character identifier it returns a line. -/
theorem track_to_str_invalid_iff (t : Track) :
    (track_to_str t = none ↔ t.id.length ≠ ID_WIDTH)
    ∧ (t.id.length = ID_WIDTH → ∃ line, track_to_str t = some line) := by
  constructor
  · constructor
    · intro hn hlen
      rw [track_to_str] at hn
      simp only [if_pos hlen] at hn
      exact Option.noConfusion hn
    · intro hne
      rw [track_to_str]
      simp only [if_neg hne]
  · intro hlen
    refine ⟨fit t.name TITLE_WIDTH ++ " | ".data
        ++ fit (joinArtists t.artists) ARTIST_WIDTH ++ " | ".data ++ t.id, ?_⟩
    rw [track_to_str]
    simp only [if_pos hlen]

/-- **C6, witness.** The failure equivalence at a malformed and at a
well-formed concrete track. -/
theorem track_to_str_invalid_iff_witness :
    (track_to_str badTrack = none ↔ badTrack.id.length ≠ ID_WIDTH)
    ∧ (goodTrack.id.length = ID_WIDTH ∧ ∃ line, track_to_str goodTrack = some line) :=
  ⟨(track_to_str_invalid_iff badTrack).1,
    by decide,
    (track_to_str_invalid_iff goodTrack).2 (by decide)⟩

/-- **C7, witness.** On a concrete two-item playlist whose second item
fails to encode, the file has one line per item and position 1 holds the
sentinel. -/
theorem pull_invalid_handling_witness :
    (1 < demoPlaylist.length
      ∧ track_to_str (demoPlaylist.get ⟨1, by decide⟩).track = none)
    ∧ (pull_playlist_to_file demoPlaylist).getD 1 [] = "INVALID TRACK".data := by
  refine ⟨⟨by decide, by decide⟩, ?_⟩
  exact (pull_invalid_handling demoPlaylist).2.2 1 (by decide) (by decide)

/-- **C9.** The sentinel line decodes to the literal identifier
`INVALID TRACK` (with or without its trailing newline from `readlines`),
and a push of a file containing the sentinel line sends that identifier,
unfiltered, to the remote write operations. -/
theorem sentinel_pushed (pre post init : List (List Char)) :
    track_id_from_str ("INVALID TRACK").data = ("INVALID TRACK").data
    ∧ track_id_from_str ("INVALID TRACK\n").data = ("INVALID TRACK").data
    ∧ applyOps init
        (push_playlist_from_file (some (pre ++ ("INVALID TRACK\n").data :: post)))
      = pre.map track_id_from_str
          ++ ("INVALID TRACK").data :: post.map track_id_from_str := by
  refine ⟨by decide, by decide, ?_⟩
  rw [push_playlist_from_file, applyOps_set]
  simp only [List.map_append, List.map_cons]
  rw [show track_id_from_str ("INVALID TRACK\n").data = ("INVALID TRACK").data from by decide]
